import Mathlib

/-!
Verification development for the taskmanager repository.

The Go sources are shallowly embedded: strings are lists of characters,
file contents are `Str` values, the file system is a partial map from
paths to contents, and the standard-library routines the code relies on
(`strconv.Atoi`, `strconv.ParseBool`, `time.Parse` with the fixed layout
`2006-01-02 15:04:05`, `strings.SplitN`, `bufio.Scanner` line splitting)
are modelled behaviourally for exactly the uses the code makes of them.
-/

namespace TaskM

/-- Strings are modelled as lists of characters. -/
abbrev Str := List Char

/-- Convert a Lean string literal to the embedded string type. -/
def str (s : String) : Str := s.data

/-- The character for a decimal digit value. -/
def digitChar (d : Nat) : Char := Char.ofNat (48 + d)

/-- Numeric value of a list of decimal digit characters (most significant
first), computed by the usual left fold. -/
def digitsVal (cs : Str) : Nat := cs.foldl (fun a c => a * 10 + (c.toNat - 48)) 0

/-- Decimal digit characters of a natural number, most significant first.
The first argument is structural recursion fuel; `natDigits` supplies enough. -/
def natDigitsRec : Nat → Nat → Str
  | 0, _ => []
  | fuel + 1, n =>
    if n < 10 then [digitChar n]
    else natDigitsRec fuel (n / 10) ++ [digitChar (n % 10)]

/-- Decimal representation of a natural number (Go `%d` for nonnegative ints). -/
def natDigits (n : Nat) : Str := natDigitsRec (n + 1) n

/-- Decimal representation of an integer (Go `fmt.Sprintf` verb `%d`). -/
def intToStr (i : Int) : Str :=
  if i < 0 then '-' :: natDigits (-i).toNat else natDigits i.toNat

/-- Largest value of Go's 64-bit `int`. -/
def intMax : Int := 2 ^ 63 - 1

/-- Smallest value of Go's 64-bit `int`. -/
def intMin : Int := -(2 ^ 63)

/-- Model of Go `strconv.Atoi`: an optional sign followed by at least one
decimal digit and nothing else, rejecting values outside the `int` range. -/
def Atoi (s : Str) : Option Int :=
  match s with
  | [] => none
  | c :: rest =>
    let neg : Bool := c = '-'
    let digits : Str := if c = '-' ∨ c = '+' then rest else s
    if digits = [] then none
    else if digits.all Char.isDigit then
      let v : Int := if neg then -(digitsVal digits : Int) else (digitsVal digits : Int)
      if intMin ≤ v ∧ v ≤ intMax then some v else none
    else none

/-- Model of Go `strconv.ParseBool`: the exact set of accepted literals. -/
def ParseBool (s : Str) : Option Bool :=
  if s = str "1" ∨ s = str "t" ∨ s = str "T" ∨ s = str "true" ∨ s = str "TRUE" ∨ s = str "True" then
    some true
  else if s = str "0" ∨ s = str "f" ∨ s = str "F" ∨ s = str "false" ∨ s = str "FALSE" ∨ s = str "False" then
    some false
  else none

/-- Rendering of a Go `bool` with the `%t` verb. -/
def boolStr (b : Bool) : Str := if b then str "true" else str "false"

/-- A calendar timestamp at one-second resolution, as carried by the parts of
Go `time.Time` that the layout `2006-01-02 15:04:05` serializes. -/
structure DateTime where
  year : Nat
  month : Nat
  day : Nat
  hour : Nat
  minute : Nat
  second : Nat
deriving DecidableEq, Inhabited

/-- Gregorian leap-year rule, as in Go `time.isLeap`. -/
def isLeap (y : Nat) : Bool := y % 4 = 0 ∧ (y % 100 ≠ 0 ∨ y % 400 = 0)

/-- Days in a month, as in Go `time.daysIn`. -/
def daysIn (m : Nat) (y : Nat) : Nat :=
  if m = 2 then (if isLeap y then 29 else 28)
  else if m = 4 ∨ m = 6 ∨ m = 9 ∨ m = 11 then 30
  else 31

/-- A timestamp the fixed Go layout can represent and that denotes a real
calendar time: the ranges Go's formatter produces and its parser accepts. -/
def validDate (d : DateTime) : Bool :=
  1 ≤ d.year ∧ d.year ≤ 9999 ∧ 1 ≤ d.month ∧ d.month ≤ 12 ∧
    1 ≤ d.day ∧ d.day ≤ daysIn d.month d.year ∧
    d.hour ≤ 23 ∧ d.minute ≤ 59 ∧ d.second ≤ 59

/-- Zero-padding to a fixed width, as in Go `time`'s `appendInt`. -/
def padZeros (w : Nat) (n : Nat) : Str :=
  List.replicate (w - (natDigits n).length) '0' ++ natDigits n

/-- Model of Go `Time.Format` with layout `2006-01-02 15:04:05`. -/
def formatTime (d : DateTime) : Str :=
  padZeros 4 d.year ++ str "-" ++ padZeros 2 d.month ++ str "-" ++ padZeros 2 d.day ++
    str " " ++ padZeros 2 d.hour ++ str ":" ++ padZeros 2 d.minute ++ str ":" ++
    padZeros 2 d.second

/-- Read exactly two digit characters (Go `getnum` in fixed-width mode). -/
def getnum2 : Str → Option (Nat × Str)
  | c1 :: c2 :: rest =>
    if c1.isDigit ∧ c2.isDigit then
      some ((c1.toNat - 48) * 10 + (c2.toNat - 48), rest)
    else none
  | _ => none

/-- Read one or two digit characters (Go `getnum` in non-fixed mode, used for
the hour field of the layout). -/
def getnum12 : Str → Option (Nat × Str)
  | [] => none
  | [c1] => if c1.isDigit then some (c1.toNat - 48, []) else none
  | c1 :: c2 :: rest =>
    if c1.isDigit then
      if c2.isDigit then some ((c1.toNat - 48) * 10 + (c2.toNat - 48), rest)
      else some (c1.toNat - 48, c2 :: rest)
    else none

/-- Read exactly four digit characters (the `2006` year field). -/
def getnum4 : Str → Option (Nat × Str)
  | c1 :: c2 :: c3 :: c4 :: rest =>
    if c1.isDigit ∧ c2.isDigit ∧ c3.isDigit ∧ c4.isDigit then
      some (digitsVal [c1, c2, c3, c4], rest)
    else none
  | _ => none

/-- Consume one expected literal character of the layout. -/
def expect (c : Char) : Str → Option Str
  | [] => none
  | x :: rest => if x = c then some rest else none

/-- Model of Go `time.Parse` with the fixed layout `2006-01-02 15:04:05`:
four-digit year, two-digit zero-padded month/day/minute/second, one- or
two-digit hour, the literal separators, no trailing text, and Go's range
validation (hour, minute, second bounds, month 1..12, day against the
month length). -/
def parseGoTime (s : Str) : Option DateTime := do
  let (y, r) ← getnum4 s
  let r ← expect '-' r
  let (mo, r) ← getnum2 r
  let r ← expect '-' r
  let (d, r) ← getnum2 r
  let r ← expect ' ' r
  let (h, r) ← getnum12 r
  let r ← expect ':' r
  let (mi, r) ← getnum2 r
  let r ← expect ':' r
  let (sec, r) ← getnum2 r
  if r = [] ∧ h < 24 ∧ mi < 60 ∧ sec < 60 ∧ 1 ≤ mo ∧ mo ≤ 12 ∧ 1 ≤ d ∧ d ≤ daysIn mo y then
    some ⟨y, mo, d, h, mi, sec⟩
  else none

/-- Split off the text before the first occurrence of a separator, with the
remainder after it; `none` when the separator does not occur. -/
def splitOnFirst (sep : Char) : Str → Option (Str × Str)
  | [] => none
  | c :: cs =>
    if c = sep then some ([], cs)
    else
      match splitOnFirst sep cs with
      | none => none
      | some (a, b) => some (c :: a, b)

/-- Model of Go `strings.SplitN s sep n` for a one-character separator:
at most `n` parts, the last part keeps any further separators. -/
def SplitN (sep : Char) : Nat → Str → List Str
  | 0, _ => []
  | 1, s => [s]
  | n + 2, s =>
    match splitOnFirst sep s with
    | none => [s]
    | some (a, b) => a :: SplitN sep (n + 1) b

/-- Full split on every occurrence of a separator (never returns `[]`). -/
def splitAll (sep : Char) : Str → List Str
  | [] => [[]]
  | c :: cs =>
    if c = sep then [] :: splitAll sep cs
    else
      match splitAll sep cs with
      | [] => [[c]]
      | l :: ls => (c :: l) :: ls

/-- Strip one trailing carriage return, as `bufio.ScanLines` does. -/
def dropCR (l : Str) : Str := if l.getLast? = some '\r' then l.dropLast else l

/-- Model of reading a file line by line with `bufio.Scanner` and
`bufio.ScanLines`: tokens are the maximal runs between newlines, a final
newline produces no empty trailing token, and each token loses one
trailing carriage return. -/
def scanLines (content : Str) : List Str :=
  let parts := splitAll '\n' content
  (if parts.getLast? = some [] then parts.dropLast else parts).map dropCR

/-- The `task.PriorityHigh` constant. -/
def PriorityHigh : Str := str "high"

/-- The `task.PriorityMedium` constant. -/
def PriorityMedium : Str := str "medium"

/-- The `task.PriorityLow` constant. -/
def PriorityLow : Str := str "low"

/-- The `task.Task` record, with the fields of the Go struct; `CreatedAt`
carries the second-resolution calendar time the program reads and writes. -/
structure Task where
  CreatedAt : DateTime
  Title : Str
  Priority : Str
  ID : Int
  Done : Bool
deriving DecidableEq, Inhabited

/-- The pointer-receiver method `(*Task).AddTask`: overwrites title, done
flag, creation time and priority on an existing record; `now` stands for
the `time.Now()` call. -/
def Task.AddTask (t : Task) (title priority : Str) (now : DateTime) : Task :=
  { t with Title := title, Done := false, CreatedAt := now, Priority := priority }

/-- The package-level `task.AddTask` function: builds a fresh record,
coercing an unrecognized priority to medium; `now` stands for `time.Now()`. -/
def AddTask (id : Int) (title priority : Str) (now : DateTime) : Task :=
  let priority :=
    if priority ≠ PriorityHigh ∧ priority ≠ PriorityMedium ∧ priority ≠ PriorityLow then
      PriorityMedium
    else priority
  { ID := id, Title := title, Done := false, CreatedAt := now, Priority := priority }

/-- One encoded line of the text codec (`taskFileFormat` without the
trailing newline): `id|title|done|createdAt|priority`. -/
def taskLine (t : Task) : Str :=
  intToStr t.ID ++ str "|" ++ t.Title ++ str "|" ++ boolStr t.Done ++ str "|" ++
    formatTime t.CreatedAt ++ str "|" ++ t.Priority

/-- The text written for a list of tasks: one `taskFileFormat` line per task. -/
def encodeTasks (ts : List Task) : Str :=
  (ts.map (fun t => taskLine t ++ str "\n")).foldr (· ++ ·) []

/-- The per-line decoder implicit in the `LoadTasks` loop body: split into at
most five `|`-separated fields, require exactly five, parse id, done flag and
timestamp (failure skips the line), and coerce an unrecognized priority to
medium. -/
def parseLine (line : Str) : Option Task :=
  match SplitN '|' 5 line with
  | [p0, p1, p2, p3, p4] =>
    match Atoi p0 with
    | none => none
    | some id =>
      match ParseBool p2 with
      | none => none
      | some done =>
        match parseGoTime p3 with
        | none => none
        | some created =>
          let priority :=
            if p4 = PriorityHigh ∨ p4 = PriorityMedium ∨ p4 = PriorityLow then p4
            else PriorityMedium
          some { ID := id, Title := p1, Done := done, CreatedAt := created, Priority := priority }
  | _ => none

/-- Result of decoding a file: the loaded records, the running maximum id,
and the number of per-line warnings written to the error stream. -/
structure LoadResult where
  tasks : List Task
  maxID : Int
  diags : Nat
deriving DecidableEq

/-- One iteration of the `LoadTasks` scanner loop, translated directly from
the Go loop body: malformed lines bump the diagnostic count and are skipped,
an unrecognized priority bumps the count but keeps the record with priority
medium, and the maximum id is updated when the new id exceeds it. -/
def loadStep (acc : LoadResult) (line : Str) : LoadResult :=
  match SplitN '|' 5 line with
  | [p0, p1, p2, p3, p4] =>
    match Atoi p0 with
    | none => { acc with diags := acc.diags + 1 }
    | some id =>
      match ParseBool p2 with
      | none => { acc with diags := acc.diags + 1 }
      | some done =>
        match parseGoTime p3 with
        | none => { acc with diags := acc.diags + 1 }
        | some created =>
          let recognized : Bool := p4 = PriorityHigh ∨ p4 = PriorityMedium ∨ p4 = PriorityLow
          let priority := if recognized then p4 else PriorityMedium
          let t : Task :=
            { ID := id, Title := p1, Done := done, CreatedAt := created, Priority := priority }
          { tasks := acc.tasks ++ [t],
            maxID := if id > acc.maxID then id else acc.maxID,
            diags := acc.diags + (if recognized then 0 else 1) }
  | _ => { acc with diags := acc.diags + 1 }

/-- The `LoadTasks` scanner loop over the lines of an already-opened file. -/
def LoadTasksLines (lines : List Str) : LoadResult :=
  lines.foldl loadStep { tasks := [], maxID := 0, diags := 0 }

/-- What can be found at a path when `LoadTasks` opens it. -/
inductive FileState where
  | absent
  | unreadable
  | present (content : Str)

/-- `storage.LoadTasks`: a missing file yields the empty list and maximum id
zero with no error, any other open failure is an error, and otherwise the
scanner loop runs over the file's lines. -/
def LoadTasks (file : FileState) : Option LoadResult :=
  match file with
  | .absent => some { tasks := [], maxID := 0, diags := 0 }
  | .unreadable => none
  | .present content => some (LoadTasksLines (scanLines content))

/-- The file system: a partial map from paths to file contents. -/
def FS := Str → Option Str

/-- Replace the contents (or absence) recorded at one path. -/
def fsSet (fs : FS) (p : Str) (v : Option Str) : FS :=
  fun q => if q = p then v else fs q

/-- Which steps of a `SaveTasks` call succeed: temporary-file creation, the
buffered record writes (a single flag, since the loop stops at the first
failing write), the flush, the close, and the rename. -/
structure SaveOracle where
  createOk : Bool
  writeOk : Bool
  flushOk : Bool
  closeOk : Bool
  renameOk : Bool

/-- `storage.SaveTasks`, step for step: create `filePath + ".tmp"`, write
every record's line through a buffered writer, flush, close, and rename the
temporary file over the target; every failure branch removes the temporary
file and reports an error. Buffered data is modelled as reaching the file at
the flush. Returns the new file system and whether an error was returned. -/
def SaveTasks (o : SaveOracle) (filePath : Str) (tasks : List Task) (fs : FS) : FS × Bool :=
  let tempFilePath := filePath ++ str ".tmp"
  if o.createOk = false then (fs, true)
  else
    let fs1 := fsSet fs tempFilePath (some [])
    if o.writeOk = false ∧ tasks ≠ [] then (fsSet fs1 tempFilePath none, true)
    else if o.flushOk = false then (fsSet fs1 tempFilePath none, true)
    else
      let fs2 := fsSet fs1 tempFilePath (some (encodeTasks tasks))
      if o.closeOk = false then (fsSet fs2 tempFilePath none, true)
      else if o.renameOk = false then (fsSet fs2 tempFilePath none, true)
      else (fsSet (fsSet fs2 tempFilePath none) filePath (some (encodeTasks tasks)), false)

/-- `storage.AppendTask` (success path): open the file in append mode,
creating it when absent, and add the encoded lines at the end. -/
def AppendTask (filePath : Str) (tasks : List Task) (fs : FS) : FS :=
  fsSet fs filePath (some ((fs filePath).getD [] ++ encodeTasks tasks))

/-- `archiver.archiveCompletedTasks`: collect the completed records under the
lock, and only when some exist append them to the archive file; the live
list is returned untouched. -/
def archiveCompletedTasks (archiverPath : Str) (tasks : List Task) (fs : FS) :
    List Task × FS :=
  let tasksToArchive := tasks.foldl (fun acc t => if t.Done then acc ++ [t] else acc) []
  if tasksToArchive.length = 0 then (tasks, fs)
  else (tasks, AppendTask archiverPath tasksToArchive fs)

/-- Two's-complement wraparound of Go's 64-bit `int`: the representative of
`n` in `[-2^63, 2^63)`. Additions on the generator counter go through this,
as Go `int` arithmetic overflows silently. -/
def wrapInt (n : Int) : Int := (n + 2 ^ 63) % 2 ^ 64 - 2 ^ 63

/-- The `utils.IDGenerator` counter (its mutex serializes access; the pure
model threads the state explicitly). -/
structure IDGenerator where
  nextID : Int
deriving DecidableEq

/-- `utils.NewIDGenerator`: the field holds `initialMaxID + 1` computed in
Go `int` arithmetic, which wraps on overflow. -/
def NewIDGenerator (initialMaxID : Int) : IDGenerator :=
  { nextID := wrapInt (initialMaxID + 1) }

/-- `utils.(*IDGenerator).NextID`: return the counter and increment it with
Go `int` arithmetic (wrapping on overflow). -/
def NextID (g : IDGenerator) : Int × IDGenerator :=
  (g.nextID, { g with nextID := wrapInt (g.nextID + 1) })

/-- `utils.(*IDGenerator).UpdateGenerator`: raise the counter to
`maxID + 1` (Go `int` arithmetic) only when `maxID` is not below the
current next value. -/
def UpdateGenerator (g : IDGenerator) (maxID : Int) : IDGenerator :=
  if maxID ≥ g.nextID then { g with nextID := wrapInt (maxID + 1) } else g

/-- Index of the first record with a given id, as found by the search loops
of `handleDoneTask` and `handleDeleteTask`. -/
def findFirstIdx (id : Int) : List Task → Option Nat
  | [] => none
  | t :: rest =>
    if t.ID = id then some 0 else (findFirstIdx id rest).map (· + 1)

/-- Outcome reported by `handleDoneTask`. -/
inductive DoneResult where
  | marked
  | alreadyDone
  | notFound
deriving DecidableEq

/-- The body of `main.handleDoneTask` on the guarded task list: walk the list,
and at the first record with the requested id either report it as already
done (leaving the list untouched) or flip its `Done` flag; report not-found
when no record matches. -/
def handleDoneTask (tasks : List Task) (id : Int) : List Task × DoneResult :=
  match tasks with
  | [] => ([], .notFound)
  | t :: rest =>
    if t.ID = id then
      if t.Done then (t :: rest, .alreadyDone)
      else ({ t with Done := true } :: rest, .marked)
    else
      let r := handleDoneTask rest id
      (t :: r.1, r.2)

/-- The body of `main.handleDeleteTask` on the guarded task list: find the
first record with the requested id, overwrite its slot with the final
element and drop the final slot; the flag reports whether a record was
found. -/
def handleDeleteTask (tasks : List Task) (id : Int) : List Task × Bool :=
  match findFirstIdx id tasks with
  | none => (tasks, false)
  | some foundIndex =>
    ((tasks.set foundIndex (tasks.getLastD default)).dropLast, true)

/-- The mutable program state shared by the command handlers: the guarded
task list and the id generator. -/
structure AppState where
  tasks : List Task
  gen : IDGenerator
deriving DecidableEq

/-- The state right after startup: tasks and maximum id from `LoadTasks`,
and the generator seeded with that maximum. -/
def initialState (content : Str) : AppState :=
  let r := LoadTasksLines (scanLines content)
  { tasks := r.tasks, gen := NewIDGenerator r.maxID }

/-- `main.handleAddTask`: coerce an unrecognized priority to the default,
draw a fresh id, and append the record built by `task.AddTask`. -/
def handleAddTask (s : AppState) (title priority : Str) (now : DateTime) : AppState :=
  let priority :=
    if priority = PriorityHigh ∨ priority = PriorityMedium ∨ priority = PriorityLow then priority
    else PriorityMedium
  let idg := NextID s.gen
  { tasks := s.tasks ++ [AddTask idg.1 title priority now], gen := idg.2 }

/-- A command-handler invocation on the live store. -/
inductive Op where
  | add (title priority : Str) (now : DateTime)
  | markDone (id : Int)
  | delete (id : Int)

/-- Whether an operation is an add (and thus draws a fresh id). -/
def Op.isAdd : Op → Bool
  | .add .. => true
  | _ => false

/-- Number of add operations in a run: how many ids the generator issues. -/
def countAdds (ops : List Op) : Nat := ops.countP Op.isAdd

/-- Run one command handler on the program state. -/
def applyOp (s : AppState) (op : Op) : AppState :=
  match op with
  | .add title priority now => handleAddTask s title priority now
  | .markDone id => { s with tasks := (handleDoneTask s.tasks id).1 }
  | .delete id => { s with tasks := (handleDeleteTask s.tasks id).1 }

/-- The `logger.Logger` state visible to producers and to the worker: the
channel's queued messages and capacity, the producer-side `closed` flag, and
the resources the worker owns (whether the channel has been closed, the
lines written to the log file, whether the file has been closed, and whether
the worker goroutine has returned). -/
structure Logger where
  queue : List Str
  capacity : Nat
  closed : Bool
  chanClosed : Bool
  fileLines : List Str
  fileClosed : Bool
  workerStopped : Bool
deriving DecidableEq

/-- How a `Log` call disposed of its message. -/
inductive LogOutcome where
  | enqueued
  | droppedClosed
  | droppedFull
deriving DecidableEq

/-- `logger.(*Logger).Log`: under the mutex, a message is dropped with a
diagnostic when the logger is closed, enqueued when the channel has room,
and dropped with a diagnostic when the channel is full. -/
def Logger.Log (l : Logger) (message : Str) : Logger × LogOutcome :=
  if l.closed then (l, .droppedClosed)
  else if l.queue.length < l.capacity then
    ({ l with queue := l.queue ++ [message] }, .enqueued)
  else (l, .droppedFull)

/-- `logger.(*Logger).Close`: under the mutex, set the `closed` flag and
nothing else; a second call returns immediately. -/
def Logger.Close (l : Logger) : Logger :=
  if l.closed then l else { l with closed := true }

/-- One log file line `[timestamp] message` written by the worker. -/
def logEntry (now : DateTime) (msg : Str) : Str :=
  str "[" ++ formatTime now ++ str "] " ++ msg ++ str "\n"

/-- The worker's reaction to cancellation of the context passed to `Run`:
close the channel, synchronously drain the remaining messages to the file,
close the file, and return (signalling the wait group). -/
def Logger.onCancel (l : Logger) (now : DateTime) : Logger :=
  { l with
    chanClosed := true,
    queue := [],
    fileLines := l.fileLines ++ l.queue.map (logEntry now),
    fileClosed := true,
    workerStopped := true }

/-- A record that satisfies the data model of the spec: positive id in the
machine range, a representable creation time, and an enumerated priority.
The title is an arbitrary string. -/
def DataModelValid (t : Task) : Prop :=
  1 ≤ t.ID ∧ t.ID ≤ intMax ∧ validDate t.CreatedAt = true ∧
    (t.Priority = PriorityHigh ∨ t.Priority = PriorityMedium ∨ t.Priority = PriorityLow)

/-- A data-model-valid record whose title survives the unescaped line
format: no field separator and no newline in the title. -/
def ValidTask (t : Task) : Prop :=
  DataModelValid t ∧ '|' ∉ t.Title ∧ '\n' ∉ t.Title

/-- The i-th of the at-most-five fields of a line. -/
def partAt (line : Str) (i : Nat) : Str := (SplitN '|' 5 line).getD i []

/-- Number of warnings `LoadTasks` writes to the error stream for one line:
one for a skipped line, one for a kept line whose priority was coerced. -/
def lineDiag (line : Str) : Nat :=
  if parseLine line = none then 1
  else if partAt line 4 = PriorityHigh ∨ partAt line 4 = PriorityMedium ∨
      partAt line 4 = PriorityLow then 0
  else 1

/-- Sample record used by concrete witnesses. -/
def sampleTask : Task :=
  { ID := 10, Title := str "alpha", Done := false,
    CreatedAt := ⟨2024, 2, 29, 23, 5, 59⟩, Priority := PriorityHigh }

/-- Second sample record used by concrete witnesses. -/
def sampleTask2 : Task :=
  { ID := 5, Title := str "beta", Done := true,
    CreatedAt := ⟨2020, 1, 1, 0, 0, 0⟩, Priority := PriorityLow }

/-- Third sample record used by concrete witnesses. -/
def sampleTask3 : Task :=
  { ID := 15, Title := str "gamma", Done := false,
    CreatedAt := ⟨2021, 12, 31, 12, 30, 0⟩, Priority := PriorityMedium }

/-- A record that is valid for the data model but whose title contains the
field separator. -/
def pipeTitleTask : Task :=
  { ID := 1, Title := str "a|b", Done := false,
    CreatedAt := ⟨2020, 1, 1, 0, 0, 0⟩, Priority := PriorityLow }

/-- A well-formed file whose two lines carry the same id. -/
def dupContent : Str :=
  str "1|a|false|2020-01-01 00:00:00|low\n1|b|false|2020-01-01 00:00:00|low\n"

/-- A well-formed line whose id is negative. -/
def negLine : Str := str "-5|a|false|2020-01-01 00:00:00|low"

/-- The oracle under which every step of `SaveTasks` succeeds. -/
def allOk : SaveOracle := ⟨true, true, true, true, true⟩

/-- The empty file system. -/
def emptyFS : FS := fun _ => none

/-- A one-line well-formed file with id 1. -/
def singleContent : Str := str "1|a|false|2020-01-01 00:00:00|low\n"

/-- A well-formed file whose two records carry the distinct ids `2^63 - 1`
and `-2^63`: loading it seeds the generator at the top of the `int` range,
so the next increment wraps. -/
def overflowContent : Str :=
  str "9223372036854775807|a|false|2020-01-01 00:00:00|low\n-9223372036854775808|b|false|2020-01-01 00:00:00|low\n"

/-- A well-formed file whose records carry ids 10, 5 and 15. -/
def maxIDContent : Str :=
  str "10|a|false|2020-01-01 00:00:00|low\n5|b|false|2020-01-01 00:00:00|low\n15|c|false|2020-01-01 00:00:00|low\n"

/-- A line whose only defect is the unrecognized priority value. -/
def urgentLine : Str := str "1|t|true|2020-01-01 00:00:00|urgent"

/-- The record decoded from `urgentLine`, with the priority coerced. -/
def urgentTask : Task :=
  { ID := 1, Title := str "t", Done := true,
    CreatedAt := ⟨2020, 1, 1, 0, 0, 0⟩, Priority := PriorityMedium }

instance : DecidablePred DataModelValid := fun t => by
  unfold DataModelValid
  infer_instance

instance : DecidablePred ValidTask := fun t => by
  unfold ValidTask
  infer_instance

end TaskM
namespace TaskM

theorem digitChar_toNat {d : Nat} (h : d < 10) : (digitChar d).toNat = 48 + d := by
  interval_cases d <;> decide

theorem digitChar_isDigit {d : Nat} (h : d < 10) : (digitChar d).isDigit = true := by
  interval_cases d <;> decide

theorem isDigit_ne {c x : Char} (h : c.isDigit = true) (hx : x.isDigit = false) : c ≠ x := by
  intro e
  rw [e, hx] at h
  cases h

theorem digitsVal_append_singleton (l : Str) (c : Char) :
    digitsVal (l ++ [c]) = digitsVal l * 10 + (c.toNat - 48) := by
  simp [digitsVal, List.foldl_append]

theorem digitsVal_replicate_zero (k : Nat) (l : Str) :
    digitsVal (List.replicate k '0' ++ l) = digitsVal l := by
  induction k with
  | zero => simp
  | succ n ih => simpa [digitsVal, List.replicate_succ] using ih

theorem natDigitsRec_succ_lt {fuel n : Nat} (h : n < 10) :
    natDigitsRec (fuel + 1) n = [digitChar n] := by
  rw [show natDigitsRec (fuel + 1) n =
      if n < 10 then [digitChar n] else natDigitsRec fuel (n / 10) ++ [digitChar (n % 10)]
      from rfl, if_pos h]

theorem natDigitsRec_succ_ge {fuel n : Nat} (h : ¬ n < 10) :
    natDigitsRec (fuel + 1) n = natDigitsRec fuel (n / 10) ++ [digitChar (n % 10)] := by
  rw [show natDigitsRec (fuel + 1) n =
      if n < 10 then [digitChar n] else natDigitsRec fuel (n / 10) ++ [digitChar (n % 10)]
      from rfl, if_neg h]

theorem lt_ten_pow_succ (n : Nat) : n < 10 ^ (n + 1) :=
  lt_of_lt_of_le (Nat.lt_two_pow n)
    (le_trans (Nat.pow_le_pow_left (by norm_num) n)
      (Nat.pow_le_pow_right (by norm_num) (by omega)))

theorem natDigitsRec_spec :
    ∀ fuel n, n < 10 ^ (fuel + 1) →
      natDigitsRec (fuel + 1) n ≠ [] ∧
      (∀ c ∈ natDigitsRec (fuel + 1) n, c.isDigit = true) ∧
      digitsVal (natDigitsRec (fuel + 1) n) = n := by
  intro fuel
  induction fuel with
  | zero =>
    intro n hn
    have h10 : n < 10 := by simpa using hn
    rw [natDigitsRec_succ_lt h10]
    refine ⟨by simp, ?_, ?_⟩
    · intro c hc
      simp only [List.mem_singleton] at hc
      subst hc
      exact digitChar_isDigit h10
    · simp [digitsVal, digitChar_toNat h10]
  | succ m ih =>
    intro n hn
    by_cases h10 : n < 10
    · rw [natDigitsRec_succ_lt h10]
      refine ⟨by simp, ?_, ?_⟩
      · intro c hc
        simp only [List.mem_singleton] at hc
        subst hc
        exact digitChar_isDigit h10
      · simp [digitsVal, digitChar_toNat h10]
    · rw [natDigitsRec_succ_ge h10]
      have hdiv : n / 10 < 10 ^ (m + 1) := by
        rw [Nat.div_lt_iff_lt_mul (by norm_num)]
        calc n < 10 ^ (m + 1 + 1) := hn
        _ = 10 ^ (m + 1) * 10 := by ring
      obtain ⟨hne, hdig, hval⟩ := ih (n / 10) hdiv
      refine ⟨by simp, ?_, ?_⟩
      · intro c hc
        rcases List.mem_append.mp hc with h | h
        · exact hdig c h
        · simp only [List.mem_singleton] at h
          subst h
          exact digitChar_isDigit (Nat.mod_lt _ (by norm_num))
      · rw [digitsVal_append_singleton, hval, digitChar_toNat (Nat.mod_lt _ (by norm_num))]
        omega

theorem natDigits_ne_nil (n : Nat) : natDigits n ≠ [] :=
  (natDigitsRec_spec n n (lt_ten_pow_succ n)).1

theorem natDigits_isDigit (n : Nat) : ∀ c ∈ natDigits n, c.isDigit = true :=
  (natDigitsRec_spec n n (lt_ten_pow_succ n)).2.1

theorem digitsVal_natDigits (n : Nat) : digitsVal (natDigits n) = n :=
  (natDigitsRec_spec n n (lt_ten_pow_succ n)).2.2

theorem natDigitsRec_length :
    ∀ fuel n k, n < 10 ^ (fuel + 1) → n < 10 ^ k → 1 ≤ k →
      (natDigitsRec (fuel + 1) n).length ≤ k := by
  intro fuel
  induction fuel with
  | zero =>
    intro n k hn hk h1
    have h10 : n < 10 := by simpa using hn
    rw [natDigitsRec_succ_lt h10]
    simpa using h1
  | succ m ih =>
    intro n k hn hk h1
    by_cases h10 : n < 10
    · rw [natDigitsRec_succ_lt h10]
      simpa using h1
    · rw [natDigitsRec_succ_ge h10]
      have hk2 : 2 ≤ k := by
        rcases Nat.lt_or_ge k 2 with hlt | hge
        · have : k = 1 := by omega
          subst this
          simp only [pow_one] at hk
          omega
        · exact hge
      have hdiv : n / 10 < 10 ^ (m + 1) := by
        rw [Nat.div_lt_iff_lt_mul (by norm_num)]
        calc n < 10 ^ (m + 1 + 1) := hn
        _ = 10 ^ (m + 1) * 10 := by ring
      have hdivk : n / 10 < 10 ^ (k - 1) := by
        rw [Nat.div_lt_iff_lt_mul (by norm_num)]
        calc n < 10 ^ k := hk
        _ = 10 ^ (k - 1) * 10 := by
          rw [← pow_succ]
          congr 1
          omega
      have hlen := ih (n / 10) (k - 1) hdiv hdivk (by omega)
      simp only [List.length_append, List.length_singleton]
      omega

theorem natDigits_length_le {n k : Nat} (hk : n < 10 ^ k) (h1 : 1 ≤ k) :
    (natDigits n).length ≤ k :=
  natDigitsRec_length n n k (lt_ten_pow_succ n) hk h1

end TaskM
namespace TaskM

theorem padZeros_length {w n : Nat} (h : n < 10 ^ w) (hw : 1 ≤ w) :
    (padZeros w n).length = w := by
  have hle := natDigits_length_le h hw
  simp only [padZeros, List.length_append, List.length_replicate]
  omega

theorem padZeros_isDigit {w n : Nat} : ∀ c ∈ padZeros w n, c.isDigit = true := by
  intro c hc
  rcases List.mem_append.mp hc with h | h
  · have := List.eq_of_mem_replicate h
    subst this
    decide
  · exact natDigits_isDigit n c h

theorem digitsVal_padZeros (w n : Nat) : digitsVal (padZeros w n) = n := by
  rw [padZeros, digitsVal_replicate_zero, digitsVal_natDigits]

theorem Atoi_natDigits {n : Nat} (h : (n : Int) ≤ intMax) :
    Atoi (natDigits n) = some (n : Int) := by
  obtain ⟨c, rest, hl⟩ := List.exists_cons_of_ne_nil (natDigits_ne_nil n)
  have hdig : c.isDigit = true := by
    apply natDigits_isDigit n
    rw [hl]
    exact List.mem_cons_self _ _
  have hnm : c ≠ '-' := isDigit_ne hdig (by decide)
  have hnp : c ≠ '+' := isDigit_ne hdig (by decide)
  have hall : (c :: rest).all Char.isDigit = true := by
    rw [← hl]
    exact List.all_eq_true.mpr (natDigits_isDigit n)
  have hval : digitsVal (c :: rest) = n := by rw [← hl, digitsVal_natDigits]
  have hmin : intMin ≤ (n : Int) := le_trans (by norm_num [intMin]) (Int.ofNat_nonneg n)
  rw [hl, Atoi]
  simp [hnm, hnp, hall, hval, hmin, h]

theorem Atoi_intToStr {i : Int} (h0 : 0 ≤ i) (h : i ≤ intMax) :
    Atoi (intToStr i) = some i := by
  rw [intToStr, if_neg (not_lt.mpr h0)]
  have : ((i.toNat : Nat) : Int) = i := Int.toNat_of_nonneg h0
  rw [Atoi_natDigits (by rw [this]; exact h), this]

theorem ParseBool_boolStr (b : Bool) : ParseBool (boolStr b) = some b := by
  cases b <;> decide

end TaskM
namespace TaskM

theorem list_length_two {α : Type} {l : List α} (h : l.length = 2) :
    ∃ a b, l = [a, b] := by
  match l, h with
  | [a, b], _ => exact ⟨a, b, rfl⟩

theorem list_length_four {α : Type} {l : List α} (h : l.length = 4) :
    ∃ a b c d, l = [a, b, c, d] := by
  match l, h with
  | [a, b, c, d], _ => exact ⟨a, b, c, d, rfl⟩

theorem getnum2_append {l : Str} (rest : Str) (hlen : l.length = 2)
    (hdig : ∀ c ∈ l, c.isDigit = true) :
    getnum2 (l ++ rest) = some (digitsVal l, rest) := by
  obtain ⟨a, b, rfl⟩ := list_length_two hlen
  have ha := hdig a (by simp)
  have hb := hdig b (by simp)
  simp [getnum2, ha, hb, digitsVal]

theorem getnum12_append {l : Str} (rest : Str) (hlen : l.length = 2)
    (hdig : ∀ c ∈ l, c.isDigit = true) :
    getnum12 (l ++ rest) = some (digitsVal l, rest) := by
  obtain ⟨a, b, rfl⟩ := list_length_two hlen
  have ha := hdig a (by simp)
  have hb := hdig b (by simp)
  simp [getnum12, ha, hb, digitsVal]

theorem getnum4_append {l : Str} (rest : Str) (hlen : l.length = 4)
    (hdig : ∀ c ∈ l, c.isDigit = true) :
    getnum4 (l ++ rest) = some (digitsVal l, rest) := by
  obtain ⟨a, b, c, d, rfl⟩ := list_length_four hlen
  have ha := hdig a (by simp)
  have hb := hdig b (by simp)
  have hc := hdig c (by simp)
  have hd := hdig d (by simp)
  simp [getnum4, ha, hb, hc, hd]

theorem expect_cons (c : Char) (rest : Str) : expect c (c :: rest) = some rest := by
  simp [expect]

theorem daysIn_le (m y : Nat) : daysIn m y ≤ 31 := by
  rw [daysIn]
  split_ifs <;> omega

theorem parseGoTime_formatTime {d : DateTime} (h : validDate d = true) :
    parseGoTime (formatTime d) = some d := by
  simp only [validDate, Bool.and_eq_true, decide_eq_true_eq] at h
  obtain ⟨h1, h2, h3, h4, h5, h6, h7, h8, h9⟩ := h
  have hy : d.year < 10 ^ 4 := by norm_num; omega
  have hmo : d.month < 10 ^ 2 := by norm_num; omega
  have hdd : d.day < 10 ^ 2 := by
    have := daysIn_le d.month d.year
    norm_num
    omega
  have hh : d.hour < 10 ^ 2 := by norm_num; omega
  have hmi : d.minute < 10 ^ 2 := by norm_num; omega
  have hsec : d.second < 10 ^ 2 := by norm_num; omega
  rw [formatTime, show str "-" = ['-'] from rfl, show str " " = [' '] from rfl,
    show str ":" = [':'] from rfl]
  simp only [List.append_assoc, List.singleton_append, List.cons_append, List.nil_append]
  rw [parseGoTime]
  rw [getnum4_append _ (padZeros_length hy (by norm_num)) padZeros_isDigit]
  simp only [Option.bind_eq_bind, Option.some_bind, digitsVal_padZeros, List.nil_append]
  rw [expect_cons]
  simp only [Option.bind_eq_bind, Option.some_bind, List.nil_append]
  rw [getnum2_append _ (padZeros_length hmo (by norm_num)) padZeros_isDigit]
  simp only [Option.bind_eq_bind, Option.some_bind, digitsVal_padZeros, List.nil_append]
  rw [expect_cons]
  simp only [Option.bind_eq_bind, Option.some_bind, List.nil_append]
  rw [getnum2_append _ (padZeros_length hdd (by norm_num)) padZeros_isDigit]
  simp only [Option.bind_eq_bind, Option.some_bind, digitsVal_padZeros, List.nil_append]
  rw [expect_cons]
  simp only [Option.bind_eq_bind, Option.some_bind, List.nil_append]
  rw [getnum12_append _ (padZeros_length hh (by norm_num)) padZeros_isDigit]
  simp only [Option.bind_eq_bind, Option.some_bind, digitsVal_padZeros, List.nil_append]
  rw [expect_cons]
  simp only [Option.bind_eq_bind, Option.some_bind, List.nil_append]
  rw [getnum2_append _ (padZeros_length hmi (by norm_num)) padZeros_isDigit]
  simp only [Option.bind_eq_bind, Option.some_bind, digitsVal_padZeros, List.nil_append]
  rw [expect_cons]
  simp only [Option.bind_eq_bind, Option.some_bind, List.nil_append]
  rw [show padZeros 2 d.second = padZeros 2 d.second ++ ([] : Str) from (List.append_nil _).symm]
  rw [getnum2_append _ (padZeros_length hsec (by norm_num)) padZeros_isDigit]
  simp only [Option.bind_eq_bind, Option.some_bind, digitsVal_padZeros, List.nil_append]
  rw [if_pos]
  exact ⟨trivial, by omega, by omega, by omega, by omega, by omega, by omega, by omega⟩

end TaskM
namespace TaskM

theorem splitOnFirst_append {sep : Char} {a : Str} (b : Str) (h : sep ∉ a) :
    splitOnFirst sep (a ++ sep :: b) = some (a, b) := by
  induction a with
  | nil => simp [splitOnFirst]
  | cons c cs ih =>
    have hc : c ≠ sep := fun e => h (by simp [e])
    have hcs : sep ∉ cs := fun e => h (by simp [e])
    simp only [List.cons_append, splitOnFirst, if_neg hc, List.append_eq, ih hcs]

theorem splitOnFirst_eq_none {sep : Char} {s : Str} (h : sep ∉ s) :
    splitOnFirst sep s = none := by
  induction s with
  | nil => simp [splitOnFirst]
  | cons c cs ih =>
    have hc : c ≠ sep := fun e => h (by simp [e])
    have hcs : sep ∉ cs := fun e => h (by simp [e])
    simp only [splitOnFirst, if_neg hc, ih hcs]

theorem SplitN_succ_append {sep : Char} {a : Str} (n : Nat) (b : Str) (h : sep ∉ a) :
    SplitN sep (n + 2) (a ++ sep :: b) = a :: SplitN sep (n + 1) b := by
  rw [show SplitN sep (n + 2) (a ++ sep :: b) =
      match splitOnFirst sep (a ++ sep :: b) with
      | none => [a ++ sep :: b]
      | some (x, y) => x :: SplitN sep (n + 1) y
      from rfl, splitOnFirst_append b h]

theorem SplitN_one (sep : Char) (s : Str) : SplitN sep 1 s = [s] := rfl

theorem splitAll_ne_nil (sep : Char) (s : Str) : splitAll sep s ≠ [] := by
  induction s with
  | nil => simp [splitAll]
  | cons c cs ih =>
    rw [splitAll]
    split
    · simp
    · rcases h : splitAll sep cs with _ | ⟨l, ls⟩
      · exact absurd h ih
      · simp [h]

theorem splitAll_cons_of_sep (sep : Char) (cs : Str) :
    splitAll sep (sep :: cs) = [] :: splitAll sep cs := by
  rw [splitAll, if_pos rfl]

theorem splitAll_cons_of_ne {sep c : Char} (cs : Str) (h : c ≠ sep) :
    splitAll sep (c :: cs) =
      (c :: (splitAll sep cs).headI) :: (splitAll sep cs).tail := by
  rw [splitAll, if_neg h]
  rcases hs : splitAll sep cs with _ | ⟨l, ls⟩
  · exact absurd hs (splitAll_ne_nil sep cs)
  · simp

theorem splitAll_append {sep : Char} {a : Str} (b : Str) (h : sep ∉ a) :
    splitAll sep (a ++ sep :: b) = a :: splitAll sep b := by
  induction a with
  | nil => simp [splitAll_cons_of_sep]
  | cons c cs ih =>
    have hc : c ≠ sep := fun e => h (by simp [e])
    have hcs : sep ∉ cs := fun e => h (by simp [e])
    rw [List.cons_append, splitAll_cons_of_ne _ hc, ih hcs]
    simp

end TaskM
namespace TaskM

theorem not_mem_intToStr {x : Char} (i : Int) (hx : x.isDigit = false) (hxm : x ≠ '-') :
    x ∉ intToStr i := by
  intro h
  rw [intToStr] at h
  split at h
  · rcases List.mem_cons.mp h with e | e
    · exact hxm e
    · exact isDigit_ne (natDigits_isDigit _ x e) hx rfl
  · exact isDigit_ne (natDigits_isDigit _ x h) hx rfl

theorem not_mem_formatTime {x : Char} (d : DateTime) (hx : x.isDigit = false)
    (h1 : x ≠ '-') (h2 : x ≠ ' ') (h3 : x ≠ ':') : x ∉ formatTime d := by
  intro h
  rw [formatTime, show str "-" = ['-'] from rfl, show str " " = [' '] from rfl,
    show str ":" = [':'] from rfl] at h
  simp only [List.mem_append, List.mem_singleton] at h
  rcases h with (((((((((hp | e) | hp) | e) | hp) | e) | hp) | e) | hp) | e) | hp <;>
    first
      | exact isDigit_ne (padZeros_isDigit x hp) hx rfl
      | exact h1 e
      | exact h2 e
      | exact h3 e

theorem not_mem_boolStr_pipe (b : Bool) : '|' ∉ boolStr b := by
  cases b <;> decide

theorem not_mem_boolStr_newline (b : Bool) : '\n' ∉ boolStr b := by
  cases b <;> decide

theorem SplitN_five {sep : Char} {a : Str} (b : Str) (h : sep ∉ a) :
    SplitN sep 5 (a ++ sep :: b) = a :: SplitN sep 4 b :=
  SplitN_succ_append 3 b h

theorem SplitN_four {sep : Char} {a : Str} (b : Str) (h : sep ∉ a) :
    SplitN sep 4 (a ++ sep :: b) = a :: SplitN sep 3 b :=
  SplitN_succ_append 2 b h

theorem SplitN_three {sep : Char} {a : Str} (b : Str) (h : sep ∉ a) :
    SplitN sep 3 (a ++ sep :: b) = a :: SplitN sep 2 b :=
  SplitN_succ_append 1 b h

theorem SplitN_two {sep : Char} {a : Str} (b : Str) (h : sep ∉ a) :
    SplitN sep 2 (a ++ sep :: b) = a :: SplitN sep 1 b :=
  SplitN_succ_append 0 b h

theorem SplitN_taskLine {t : Task} (ht : '|' ∉ t.Title) :
    SplitN '|' 5 (taskLine t) =
      [intToStr t.ID, t.Title, boolStr t.Done, formatTime t.CreatedAt, t.Priority] := by
  rw [taskLine, show str "|" = ['|'] from rfl]
  simp only [List.append_assoc, List.cons_append, List.singleton_append, List.nil_append]
  rw [SplitN_five _ (not_mem_intToStr t.ID (by decide) (by decide)),
    SplitN_four _ ht,
    SplitN_three _ (not_mem_boolStr_pipe t.Done),
    SplitN_two _ (not_mem_formatTime t.CreatedAt (by decide) (by decide) (by decide) (by decide)),
    SplitN_one]

end TaskM
namespace TaskM

theorem encodeTasks_nil : encodeTasks [] = [] := rfl

theorem encodeTasks_cons (t : Task) (ts : List Task) :
    encodeTasks (t :: ts) = taskLine t ++ '\n' :: encodeTasks ts := by
  rw [encodeTasks, List.map_cons, List.foldr_cons, show str "\n" = ['\n'] from rfl]
  rw [List.append_assoc, List.singleton_append]
  rfl

theorem splitAll_encode {ts : List Task} (h : ∀ t ∈ ts, '\n' ∉ taskLine t) :
    splitAll '\n' (encodeTasks ts) = ts.map taskLine ++ [[]] := by
  induction ts with
  | nil => simp [encodeTasks_nil, splitAll]
  | cons t rest ih =>
    rw [encodeTasks_cons, splitAll_append _ (h t (List.mem_cons_self t rest)),
      ih (fun u hu => h u (List.mem_cons_of_mem t hu))]
    simp

theorem dropCR_of_getLast? {l : Str} (h : l.getLast? ≠ some '\r') : dropCR l = l := by
  rw [dropCR, if_neg h]

theorem scanLines_encode {ts : List Task} (h1 : ∀ t ∈ ts, '\n' ∉ taskLine t)
    (h2 : ∀ t ∈ ts, (taskLine t).getLast? ≠ some '\r') :
    scanLines (encodeTasks ts) = ts.map taskLine := by
  rw [scanLines]
  simp only [splitAll_encode h1]
  rw [List.getLast?_concat, if_pos rfl, List.dropLast_concat, List.map_map]
  exact List.map_congr_left (fun t ht => dropCR_of_getLast? (h2 t ht))

theorem taskLine_getLast?_priority {t : Task} (h : t.Priority ≠ []) :
    (taskLine t).getLast? = t.Priority.getLast? := by
  rw [taskLine]
  rw [List.getLast?_append_of_ne_nil _ h]

theorem newline_not_mem_taskLine {t : Task}
    (hp : t.Priority = PriorityHigh ∨ t.Priority = PriorityMedium ∨ t.Priority = PriorityLow)
    (ht : '\n' ∉ t.Title) : '\n' ∉ taskLine t := by
  intro h
  rw [taskLine, show str "|" = ['|'] from rfl] at h
  simp only [List.mem_append, List.mem_singleton] at h
  rcases h with ((((((((hm | e) | hm) | e) | hm) | e) | hm) | e) | hm)
  · exact not_mem_intToStr t.ID (by decide) (by decide) hm
  · exact absurd e (by decide)
  · exact ht hm
  · exact absurd e (by decide)
  · exact not_mem_boolStr_newline t.Done hm
  · exact absurd e (by decide)
  · exact not_mem_formatTime t.CreatedAt (by decide) (by decide) (by decide) (by decide) hm
  · exact absurd e (by decide)
  · rcases hp with e | e | e <;> rw [e] at hm <;> exact absurd hm (by decide)

theorem taskLine_not_end_cr {t : Task}
    (hp : t.Priority = PriorityHigh ∨ t.Priority = PriorityMedium ∨ t.Priority = PriorityLow) :
    (taskLine t).getLast? ≠ some '\r' := by
  rcases hp with e | e | e <;>
    rw [taskLine_getLast?_priority (by rw [e] ; decide), e] <;> decide

theorem parseLine_taskLine {t : Task} (h : ValidTask t) : parseLine (taskLine t) = some t := by
  obtain ⟨⟨hid1, hid2, hdate, hp⟩, hpipe, hnl⟩ := h
  simp only [parseLine, SplitN_taskLine hpipe,
    Atoi_intToStr (by omega : (0 : Int) ≤ t.ID) hid2, ParseBool_boolStr,
    parseGoTime_formatTime hdate, if_pos hp]

end TaskM
namespace TaskM

theorem if_gt_eq_max (m i : Int) : (if i > m then i else m) = max m i := by
  split_ifs <;> omega

theorem loadStep_eq (acc : LoadResult) (line : Str) :
    loadStep acc line =
      { tasks := acc.tasks ++ (parseLine line).toList,
        maxID := ((parseLine line).toList.map Task.ID).foldl max acc.maxID,
        diags := acc.diags + lineDiag line } := by
  rcases h5 : SplitN '|' 5 line with _ | ⟨p0, _ | ⟨p1, _ | ⟨p2, _ | ⟨p3, _ | ⟨p4, _ | ⟨q, qs⟩⟩⟩⟩⟩⟩ <;>
    simp only [loadStep, parseLine, lineDiag, partAt, h5] <;>
    try simp
  rcases ha : Atoi p0 with _ | id <;> simp only [ha]
  · simp [lineDiag, parseLine, partAt, h5, ha]
  rcases hb : ParseBool p2 with _ | done <;> simp only [hb]
  · simp [lineDiag, parseLine, partAt, h5, ha, hb]
  rcases hc : parseGoTime p3 with _ | created <;> simp only [hc]
  · simp [lineDiag, parseLine, partAt, h5, ha, hb, hc]
  by_cases hp : p4 = PriorityHigh ∨ p4 = PriorityMedium ∨ p4 = PriorityLow <;>
    simp [lineDiag, parseLine, partAt, h5, ha, hb, hc, hp, if_gt_eq_max]

theorem foldl_loadStep (ls : List Str) : ∀ acc : LoadResult,
    ls.foldl loadStep acc =
      { tasks := acc.tasks ++ ls.filterMap parseLine,
        maxID := ((ls.filterMap parseLine).map Task.ID).foldl max acc.maxID,
        diags := acc.diags + (ls.map lineDiag).sum } := by
  induction ls with
  | nil => intro acc; simp
  | cons l rest ih =>
    intro acc
    rw [List.foldl_cons, ih, loadStep_eq]
    rcases h : parseLine l with _ | t <;>
      simp [h, List.filterMap_cons, List.foldl_cons, List.map_cons, List.sum_cons] <;>
      omega

theorem LoadTasksLines_tasks (ls : List Str) :
    (LoadTasksLines ls).tasks = ls.filterMap parseLine := by
  rw [LoadTasksLines, foldl_loadStep]
  simp

theorem LoadTasksLines_maxID (ls : List Str) :
    (LoadTasksLines ls).maxID = ((ls.filterMap parseLine).map Task.ID).foldl max 0 := by
  rw [LoadTasksLines, foldl_loadStep]

theorem LoadTasksLines_diags (ls : List Str) :
    (LoadTasksLines ls).diags = (ls.map lineDiag).sum := by
  rw [LoadTasksLines, foldl_loadStep]
  simp

end TaskM
namespace TaskM

theorem filterMap_parseLine_taskLine {ts : List Task} (h : ∀ t ∈ ts, ValidTask t) :
    (ts.map taskLine).filterMap parseLine = ts := by
  induction ts with
  | nil => rfl
  | cons t rest ih =>
    rw [List.map_cons, List.filterMap_cons, parseLine_taskLine (h t (List.mem_cons_self t rest)),
      ih (fun u hu => h u (List.mem_cons_of_mem t hu))]

theorem parseLine_eq_none_iff (line : Str) :
    parseLine line = none ↔
      ¬((SplitN '|' 5 line).length = 5 ∧ (Atoi (partAt line 0)).isSome = true ∧
        (ParseBool (partAt line 2)).isSome = true ∧ (parseGoTime (partAt line 3)).isSome = true) := by
  rcases h5 : SplitN '|' 5 line with _ | ⟨p0, _ | ⟨p1, _ | ⟨p2, _ | ⟨p3, _ | ⟨p4, _ | ⟨q, qs⟩⟩⟩⟩⟩⟩ <;>
    simp only [parseLine, partAt, h5] <;> try simp
  rcases ha : Atoi p0 with _ | id <;> simp only [ha] <;> try simp
  rcases hb : ParseBool p2 with _ | done <;> simp only [hb] <;> try simp
  rcases hc : parseGoTime p3 with _ | created <;> simp only [hc] <;> try simp

theorem parseLine_some_spec {line : Str} {t : Task} (h : parseLine line = some t) :
    (SplitN '|' 5 line).length = 5 ∧
      Atoi (partAt line 0) = some t.ID ∧
      t.Title = partAt line 1 ∧
      ParseBool (partAt line 2) = some t.Done ∧
      parseGoTime (partAt line 3) = some t.CreatedAt ∧
      ((partAt line 4 = PriorityHigh ∨ partAt line 4 = PriorityMedium ∨
          partAt line 4 = PriorityLow) → t.Priority = partAt line 4) ∧
      (¬(partAt line 4 = PriorityHigh ∨ partAt line 4 = PriorityMedium ∨
          partAt line 4 = PriorityLow) → t.Priority = PriorityMedium) := by
  rcases h5 : SplitN '|' 5 line with _ | ⟨p0, _ | ⟨p1, _ | ⟨p2, _ | ⟨p3, _ | ⟨p4, _ | ⟨q, qs⟩⟩⟩⟩⟩⟩ <;>
    rw [parseLine, h5] at h <;> try simp at h
  simp only [partAt, h5, List.getD_cons_zero, List.getD_cons_succ]
  rcases ha : Atoi p0 with _ | id <;> rw [ha] at h
  · simp at h
  rcases hb : ParseBool p2 with _ | done <;> rw [hb] at h
  · simp at h
  rcases hc : parseGoTime p3 with _ | created <;> rw [hc] at h
  · simp at h
  by_cases hp : p4 = PriorityHigh ∨ p4 = PriorityMedium ∨ p4 = PriorityLow
  · rw [if_pos hp] at h
    rw [Option.some_inj] at h
    subst h
    simp [hp, h5]
  · rw [if_neg hp] at h
    rw [Option.some_inj] at h
    subst h
    simp [hp, h5]

end TaskM
namespace TaskM

theorem findFirstIdx_none_iff {id : Int} {ts : List Task} :
    findFirstIdx id ts = none ↔ ∀ t ∈ ts, t.ID ≠ id := by
  induction ts with
  | nil => simp [findFirstIdx]
  | cons t rest ih =>
    rw [findFirstIdx]
    by_cases h : t.ID = id
    · simp [h]
    · simp [h, Option.map_eq_none, ih]

theorem findFirstIdx_some_get {id : Int} {ts : List Task} {i : Nat}
    (h : findFirstIdx id ts = some i) : ∃ t, ts.get? i = some t ∧ t.ID = id := by
  induction ts generalizing i with
  | nil => simp [findFirstIdx] at h
  | cons t rest ih =>
    rw [findFirstIdx] at h
    by_cases ht : t.ID = id
    · rw [if_pos ht, Option.some_inj] at h
      subst h
      exact ⟨t, rfl, ht⟩
    · rw [if_neg ht] at h
      rcases Option.map_eq_some'.mp h with ⟨j, hj, rfl⟩
      obtain ⟨u, hu, hid⟩ := ih hj
      exact ⟨u, by simpa using hu, hid⟩

theorem findFirstIdx_some_first {id : Int} {ts : List Task} {i : Nat}
    (h : findFirstIdx id ts = some i) :
    ∀ j t, j < i → ts.get? j = some t → t.ID ≠ id := by
  induction ts generalizing i with
  | nil => simp [findFirstIdx] at h
  | cons t rest ih =>
    rw [findFirstIdx] at h
    by_cases ht : t.ID = id
    · rw [if_pos ht, Option.some_inj] at h
      subst h
      intro j u hj
      omega
    · rw [if_neg ht] at h
      rcases Option.map_eq_some'.mp h with ⟨k, hk, rfl⟩
      intro j u hj hu
      cases j with
      | zero =>
        rw [List.get?_cons_zero, Option.some_inj] at hu
        subst hu
        exact ht
      | succ j =>
        rw [List.get?_cons_succ] at hu
        exact ih hk j u (by omega) hu

theorem findFirstIdx_some_lt {id : Int} {ts : List Task} {i : Nat}
    (h : findFirstIdx id ts = some i) : i < ts.length := by
  obtain ⟨t, ht, _⟩ := findFirstIdx_some_get h
  exact List.get?_eq_some.mp ht |>.1

theorem handleDoneTask_none {id : Int} {ts : List Task}
    (h : findFirstIdx id ts = none) : handleDoneTask ts id = (ts, .notFound) := by
  induction ts with
  | nil => rfl
  | cons t rest ih =>
    rw [findFirstIdx] at h
    by_cases ht : t.ID = id
    · rw [if_pos ht] at h
      cases h
    · rw [if_neg ht, Option.map_eq_none'] at h
      rw [handleDoneTask, if_neg ht, ih h]

theorem handleDoneTask_found {id : Int} {ts : List Task} {i : Nat} {t : Task}
    (h : findFirstIdx id ts = some i) (hg : ts.get? i = some t) :
    (t.Done = true → handleDoneTask ts id = (ts, .alreadyDone)) ∧
      (t.Done = false → handleDoneTask ts id = (ts.set i { t with Done := true }, .marked)) := by
  induction ts generalizing i with
  | nil => simp [findFirstIdx] at h
  | cons u rest ih =>
    rw [findFirstIdx] at h
    by_cases hu : u.ID = id
    · rw [if_pos hu, Option.some_inj] at h
      subst h
      rw [List.get?_cons_zero, Option.some_inj] at hg
      subst hg
      constructor
      · intro hd
        rw [handleDoneTask, if_pos hu, if_pos hd]
      · intro hd
        rw [handleDoneTask, if_pos hu, if_neg (by rw [hd]; exact Bool.false_ne_true)]
        rfl
    · rw [if_neg hu] at h
      rcases Option.map_eq_some'.mp h with ⟨k, hk, rfl⟩
      rw [List.get?_cons_succ] at hg
      obtain ⟨h1, h2⟩ := ih hk hg
      constructor
      · intro hd
        rw [handleDoneTask, if_neg hu, h1 hd]
      · intro hd
        rw [handleDoneTask, if_neg hu, h2 hd]
        rfl

theorem handleDoneTask_map_ID (ts : List Task) (id : Int) :
    (handleDoneTask ts id).1.map Task.ID = ts.map Task.ID := by
  induction ts with
  | nil => rfl
  | cons t rest ih =>
    rw [handleDoneTask]
    by_cases ht : t.ID = id
    · rw [if_pos ht]
      by_cases hd : t.Done <;> simp [hd]
    · rw [if_neg ht]
      simp [ih]

end TaskM
namespace TaskM

theorem handleDeleteTask_none {id : Int} {ts : List Task}
    (h : findFirstIdx id ts = none) : handleDeleteTask ts id = (ts, false) := by
  rw [handleDeleteTask, h]

theorem handleDeleteTask_found {id : Int} {ts : List Task} {i : Nat}
    (h : findFirstIdx id ts = some i) :
    handleDeleteTask ts id = ((ts.set i (ts.getLastD default)).dropLast, true) := by
  rw [handleDeleteTask, h]

theorem getLastD_cons_of_ne_nil {t : Task} {rest : List Task} (h : rest ≠ []) (d : Task) :
    (t :: rest).getLastD d = rest.getLastD d := by
  rcases rest with _ | ⟨u, us⟩
  · exact absurd rfl h
  · rw [List.getLastD_eq_getLast?, List.getLastD_eq_getLast?, List.getLast?_cons_cons]

theorem swapDelete_perm :
    ∀ (ts : List Task) (i : Nat), i < ts.length →
      ((ts.set i (ts.getLastD default)).dropLast).Perm (ts.eraseIdx i) := by
  intro ts
  induction ts with
  | nil => intro i h; simp at h
  | cons t rest ih =>
    intro i hi
    cases i with
    | zero =>
      rcases hrest : rest with _ | ⟨u, us⟩
      · simp
      rw [← hrest]
      have hne : rest ≠ [] := by rw [hrest]; simp
      have hlast : (t :: rest).getLastD default = rest.getLast hne := by
        rw [getLastD_cons_of_ne_nil hne, List.getLastD_eq_getLast?,
          List.getLast?_eq_getLast rest hne]
        rfl
      rw [List.set_cons_zero, hlast, List.eraseIdx_cons_zero,
        List.dropLast_cons_of_ne_nil hne]
      have hsplit : rest = rest.dropLast ++ [rest.getLast hne] :=
        (List.dropLast_append_getLast hne).symm
      calc (rest.getLast hne :: rest.dropLast).Perm (rest.dropLast ++ [rest.getLast hne]) :=
            (List.perm_append_singleton _ _).symm
        _ = rest := hsplit.symm
    | succ j =>
      have hj : j < rest.length := by simpa using hi
      have hne : rest ≠ [] := List.ne_nil_of_length_pos (by omega)
      have hset : (t :: rest).set (j + 1) ((t :: rest).getLastD default) =
          t :: rest.set j (rest.getLastD default) := by
        rw [List.set_cons_succ, getLastD_cons_of_ne_nil hne]
      rw [hset, List.eraseIdx_cons_succ,
        List.dropLast_cons_of_ne_nil (by
          intro e
          have : (rest.set j (rest.getLastD default)).length = 0 := by rw [e]; rfl
          rw [List.length_set] at this
          omega)]
      exact (ih j hj).cons t

end TaskM
namespace TaskM

theorem le_foldl_max (l : List Int) : ∀ a : Int, a ≤ l.foldl max a ∧ ∀ x ∈ l, x ≤ l.foldl max a := by
  induction l with
  | nil => intro a; simp
  | cons y rest ih =>
    intro a
    rw [List.foldl_cons]
    obtain ⟨h1, h2⟩ := ih (max a y)
    refine ⟨le_trans (le_max_left a y) h1, ?_⟩
    intro x hx
    rcases List.mem_cons.mp hx with rfl | hx
    · exact le_trans (le_max_right a x) h1
    · exact h2 x hx

theorem LoadTasksLines_ID_le_maxID {ls : List Str} {t : Task}
    (h : t ∈ (LoadTasksLines ls).tasks) : t.ID ≤ (LoadTasksLines ls).maxID := by
  rw [LoadTasksLines_tasks] at h
  rw [LoadTasksLines_maxID]
  exact (le_foldl_max _ 0).2 t.ID (List.mem_map_of_mem Task.ID h)

theorem wrapInt_eq_self {n : Int} (h1 : intMin ≤ n) (h2 : n ≤ intMax) : wrapInt n = n := by
  rw [wrapInt]
  simp only [intMin, intMax] at h1 h2
  omega

theorem intMin_le_zero : intMin ≤ 0 := by decide

theorem storeInv_handleAddTask {s : AppState} (title priority : Str) (now : DateTime)
    (h1 : (s.tasks.map Task.ID).Pairwise (· ≠ ·))
    (h2 : ∀ t ∈ s.tasks, t.ID < s.gen.nextID)
    (h3 : intMin ≤ s.gen.nextID) (h4 : s.gen.nextID < intMax) :
    ((handleAddTask s title priority now).tasks.map Task.ID).Pairwise (· ≠ ·) ∧
      (∀ t ∈ (handleAddTask s title priority now).tasks,
        t.ID < (handleAddTask s title priority now).gen.nextID) ∧
      (handleAddTask s title priority now).gen.nextID = s.gen.nextID + 1 := by
  have hw : wrapInt (s.gen.nextID + 1) = s.gen.nextID + 1 :=
    wrapInt_eq_self (by omega) (by omega)
  rw [handleAddTask]
  refine ⟨?_, ?_, ?_⟩
  · rw [List.map_append]
    rw [List.pairwise_append]
    refine ⟨h1, by simp [AddTask, NextID], ?_⟩
    intro x hx y hy
    simp only [NextID, AddTask, List.map_cons, List.map_nil, List.mem_singleton] at hy
    obtain ⟨u, hu, rfl⟩ := List.mem_map.mp hx
    subst hy
    exact ne_of_lt (h2 u hu)
  · intro t ht
    rcases List.mem_append.mp ht with hmem | hmem
    · exact lt_trans (h2 t hmem) (by simp only [NextID]; rw [hw]; omega)
    · simp only [List.mem_singleton] at hmem
      subst hmem
      simp only [NextID, AddTask]
      rw [hw]
      omega
  · simp only [NextID]
    exact hw

theorem storeInv_markDone {s : AppState} (id : Int)
    (h1 : (s.tasks.map Task.ID).Pairwise (· ≠ ·))
    (h2 : ∀ t ∈ s.tasks, t.ID < s.gen.nextID) :
    (((handleDoneTask s.tasks id).1.map Task.ID).Pairwise (· ≠ ·)) ∧
      ∀ t ∈ (handleDoneTask s.tasks id).1, t.ID < s.gen.nextID := by
  constructor
  · rw [handleDoneTask_map_ID]
    exact h1
  · intro t ht
    have : t.ID ∈ (handleDoneTask s.tasks id).1.map Task.ID := List.mem_map_of_mem Task.ID ht
    rw [handleDoneTask_map_ID] at this
    obtain ⟨u, hu, he⟩ := List.mem_map.mp this
    rw [← he]
    exact h2 u hu

theorem storeInv_delete {s : AppState} (id : Int)
    (h1 : (s.tasks.map Task.ID).Pairwise (· ≠ ·))
    (h2 : ∀ t ∈ s.tasks, t.ID < s.gen.nextID) :
    (((handleDeleteTask s.tasks id).1.map Task.ID).Pairwise (· ≠ ·)) ∧
      ∀ t ∈ (handleDeleteTask s.tasks id).1, t.ID < s.gen.nextID := by
  rcases hf : findFirstIdx id s.tasks with _ | i
  · rw [handleDeleteTask_none hf]
    exact ⟨h1, h2⟩
  · rw [handleDeleteTask_found hf]
    have hperm := swapDelete_perm s.tasks i (findFirstIdx_some_lt hf)
    have hsub : (s.tasks.eraseIdx i).Sublist s.tasks := List.eraseIdx_sublist s.tasks i
    constructor
    · have hpe : ((s.tasks.eraseIdx i).map Task.ID).Pairwise (· ≠ ·) :=
        (h1.sublist (hsub.map Task.ID))
      refine (List.Perm.pairwise_iff ?_ (hperm.map Task.ID)).mpr hpe
      intro a b hab
      exact Ne.symm hab
    · intro t ht
      exact h2 t (hsub.mem (hperm.mem_iff.mp ht))

theorem countAdds_cons_add (title priority : Str) (now : DateTime) (rest : List Op) :
    countAdds (Op.add title priority now :: rest) = countAdds rest + 1 := by
  simp [countAdds, List.countP_cons, Op.isAdd]

theorem countAdds_cons_markDone (id : Int) (rest : List Op) :
    countAdds (Op.markDone id :: rest) = countAdds rest := by
  simp [countAdds, List.countP_cons, Op.isAdd]

theorem countAdds_cons_delete (id : Int) (rest : List Op) :
    countAdds (Op.delete id :: rest) = countAdds rest := by
  simp [countAdds, List.countP_cons, Op.isAdd]

theorem storeInv_foldl (ops : List Op) : ∀ s : AppState,
    (s.tasks.map Task.ID).Pairwise (· ≠ ·) →
    (∀ t ∈ s.tasks, t.ID < s.gen.nextID) →
    intMin ≤ s.gen.nextID →
    s.gen.nextID + (countAdds ops : Int) ≤ intMax →
    (((ops.foldl applyOp s).tasks.map Task.ID).Pairwise (· ≠ ·)) ∧
      ∀ t ∈ (ops.foldl applyOp s).tasks, t.ID < (ops.foldl applyOp s).gen.nextID := by
  induction ops with
  | nil => intro s h1 h2 _ _; exact ⟨h1, h2⟩
  | cons op rest ih =>
    intro s h1 h2 h3 h4
    rw [List.foldl_cons]
    rcases op with ⟨title, priority, now⟩ | id | id
    · rw [countAdds_cons_add] at h4
      have hlt : s.gen.nextID < intMax := by push_cast at h4; omega
      obtain ⟨g1, g2, g3⟩ := storeInv_handleAddTask title priority now h1 h2 h3 hlt
      refine ih (handleAddTask s title priority now) g1 g2 ?_ ?_
      · rw [g3]
        omega
      · rw [g3]
        push_cast at h4 ⊢
        omega
    · rw [countAdds_cons_markDone] at h4
      obtain ⟨g1, g2⟩ := storeInv_markDone id h1 h2
      exact ih { s with tasks := (handleDoneTask s.tasks id).1 } g1 g2 h3 h4
    · rw [countAdds_cons_delete] at h4
      obtain ⟨g1, g2⟩ := storeInv_delete id h1 h2
      exact ih { s with tasks := (handleDeleteTask s.tasks id).1 } g1 g2 h3 h4

end TaskM
namespace TaskM

theorem filePath_ne_temp (p : Str) : p ≠ p ++ str ".tmp" := by
  intro h
  have hlen := congrArg List.length h
  rw [List.length_append, show (str ".tmp").length = 4 from rfl] at hlen
  omega

theorem SaveTasks_success {o : SaveOracle} {filePath : Str} {tasks : List Task} {fs : FS}
    (h : (SaveTasks o filePath tasks fs).2 = false) :
    (SaveTasks o filePath tasks fs).1 filePath = some (encodeTasks tasks) ∧
      (SaveTasks o filePath tasks fs).1 (filePath ++ str ".tmp") = none ∧
      ∀ p, p ≠ filePath → p ≠ filePath ++ str ".tmp" →
        (SaveTasks o filePath tasks fs).1 p = fs p := by
  rw [SaveTasks] at h ⊢
  split_ifs at h ⊢
  refine ⟨?_, ?_, ?_⟩
  · simp [fsSet, filePath_ne_temp filePath]
  · simp [fsSet]
    decide
  · intro p hp1 hp2
    simp [fsSet, hp1, hp2]

theorem SaveTasks_failure {o : SaveOracle} {filePath : Str} {tasks : List Task} {fs : FS}
    (h : (SaveTasks o filePath tasks fs).2 = true) :
    (SaveTasks o filePath tasks fs).1 filePath = fs filePath := by
  rw [SaveTasks] at h ⊢
  split_ifs at h ⊢
  all_goals simp [fsSet, filePath_ne_temp filePath]

theorem SaveTasks_failure_temp {o : SaveOracle} {filePath : Str} {tasks : List Task} {fs : FS}
    (h : (SaveTasks o filePath tasks fs).2 = true) (hc : o.createOk = true) :
    (SaveTasks o filePath tasks fs).1 (filePath ++ str ".tmp") = none := by
  rw [SaveTasks] at h ⊢
  split_ifs at h ⊢
  all_goals simp_all [fsSet]

theorem foldl_append_filter_done (ts : List Task) :
    ∀ acc : List Task,
      ts.foldl (fun acc t => if t.Done then acc ++ [t] else acc) acc =
        acc ++ ts.filter (fun t => t.Done) := by
  induction ts with
  | nil => intro acc; simp
  | cons t rest ih =>
    intro acc
    rw [List.foldl_cons]
    by_cases hd : t.Done <;> simp [hd, ih]

end TaskM
namespace TaskM

/-- Claim C3: SaveTasks writes all records to a temporary file next to the
target, flushes, closes, then atomically renames it over the target path; on
any write, flush, close (or rename) failure it removes the temporary file,
returns an error, and leaves the pre-existing target contents untouched, so
the target is never half-written. -/
theorem SaveTasks_atomic (o : SaveOracle) (filePath : Str) (tasks : List Task) (fs : FS) :
    ((SaveTasks o filePath tasks fs).2 = false →
      (SaveTasks o filePath tasks fs).1 filePath = some (encodeTasks tasks) ∧
      (SaveTasks o filePath tasks fs).1 (filePath ++ str ".tmp") = none ∧
      ∀ p, p ≠ filePath → p ≠ filePath ++ str ".tmp" →
        (SaveTasks o filePath tasks fs).1 p = fs p) ∧
    ((SaveTasks o filePath tasks fs).2 = true →
      (SaveTasks o filePath tasks fs).1 filePath = fs filePath) ∧
    ((SaveTasks o filePath tasks fs).2 = true → o.createOk = true →
      (SaveTasks o filePath tasks fs).1 (filePath ++ str ".tmp") = none) :=
  ⟨fun h => SaveTasks_success h,
   fun h => SaveTasks_failure h,
   fun h hc => SaveTasks_failure_temp h hc⟩

/-- Witness for claim C3 at a concrete failing oracle and a concrete
successful oracle. -/
theorem SaveTasks_atomic_witness :
    ((SaveTasks allOk (str "tasks.txt") [sampleTask] emptyFS).1 (str "tasks.txt") =
        some (encodeTasks [sampleTask]) ∧
      (SaveTasks allOk (str "tasks.txt") [sampleTask] emptyFS).1
        (str "tasks.txt" ++ str ".tmp") = none ∧
      ∀ p, p ≠ str "tasks.txt" → p ≠ str "tasks.txt" ++ str ".tmp" →
        (SaveTasks allOk (str "tasks.txt") [sampleTask] emptyFS).1 p = emptyFS p) ∧
    (SaveTasks ⟨true, true, false, true, true⟩ (str "tasks.txt") [sampleTask] emptyFS).1
      (str "tasks.txt") = emptyFS (str "tasks.txt") :=
  ⟨(SaveTasks_atomic allOk (str "tasks.txt") [sampleTask] emptyFS).1 (by decide),
   (SaveTasks_atomic ⟨true, true, false, true, true⟩ (str "tasks.txt") [sampleTask] emptyFS).2.1
     (by decide)⟩

/-- Claim C7: one archiver pass never mutates the live task list; it appends
exactly the records with Done set, in store order, through the append codec,
and performs no append at all (the file system is untouched) when the store
holds no completed record. -/
theorem archiveCompletedTasks_frame (archiverPath : Str) (ts : List Task) (fs : FS) :
    (archiveCompletedTasks archiverPath ts fs).1 = ts ∧
    (ts.filter (fun t => t.Done) = [] →
      (archiveCompletedTasks archiverPath ts fs).2 = fs) ∧
    (ts.filter (fun t => t.Done) ≠ [] →
      (archiveCompletedTasks archiverPath ts fs).2 archiverPath =
        some ((fs archiverPath).getD [] ++ encodeTasks (ts.filter (fun t => t.Done))) ∧
      ∀ p, p ≠ archiverPath → (archiveCompletedTasks archiverPath ts fs).2 p = fs p) := by
  rw [archiveCompletedTasks]
  simp only [foldl_append_filter_done, List.nil_append]
  by_cases hfe : ts.filter (fun t => t.Done) = []
  · rw [if_pos (by rw [hfe]; rfl)]
    exact ⟨rfl, fun _ => rfl, fun hne => absurd hfe hne⟩
  · rw [if_neg (by
      intro hlen
      exact hfe (List.length_eq_zero.mp hlen))]
    refine ⟨rfl, fun he => absurd he hfe, fun _ => ⟨?_, ?_⟩⟩
    · simp [AppendTask, fsSet]
    · intro p hp
      simp [AppendTask, fsSet, hp]

/-- Witness for claim C7: a store with one done and one pending task, and a
store with no done task. -/
theorem archiveCompletedTasks_frame_witness :
    (archiveCompletedTasks (str "archive.txt") [sampleTask, sampleTask2] emptyFS).1 =
      [sampleTask, sampleTask2] ∧
    ((archiveCompletedTasks (str "archive.txt") [sampleTask, sampleTask2] emptyFS).2
        (str "archive.txt") =
      some ((emptyFS (str "archive.txt")).getD [] ++
        encodeTasks ([sampleTask, sampleTask2].filter (fun t => t.Done)))) ∧
    (archiveCompletedTasks (str "archive.txt") [sampleTask] emptyFS).2 = emptyFS :=
  ⟨(archiveCompletedTasks_frame (str "archive.txt") [sampleTask, sampleTask2] emptyFS).1,
   ((archiveCompletedTasks_frame (str "archive.txt") [sampleTask, sampleTask2] emptyFS).2.2
     (by decide)).1,
   (archiveCompletedTasks_frame (str "archive.txt") [sampleTask] emptyFS).2.1 (by decide)⟩

/-- Claim C8: Logger.Close is idempotent; it touches none of the worker's
resources (queue, channel, log file, worker liveness); after Close every Log
call drops its message without enqueuing it; and worker termination is the
effect of context cancellation, not of Close. -/
theorem Logger_Close_semantics (l : Logger) (m : Str) (now : DateTime) :
    Logger.Close (Logger.Close l) = Logger.Close l ∧
    (Logger.Close l).queue = l.queue ∧
    (Logger.Close l).chanClosed = l.chanClosed ∧
    (Logger.Close l).fileClosed = l.fileClosed ∧
    (Logger.Close l).fileLines = l.fileLines ∧
    (Logger.Close l).workerStopped = l.workerStopped ∧
    Logger.Log (Logger.Close l) m = (Logger.Close l, LogOutcome.droppedClosed) ∧
    (Logger.onCancel l now).workerStopped = true := by
  by_cases hc : l.closed <;>
    simp [Logger.Close, Logger.Log, Logger.onCancel, hc]

/-- Claim C10: the pointer-receiver method Task.AddTask stores the given
title, resets Done, stamps CreatedAt with the current time, keeps the id
untouched, and stores the priority string verbatim, so an input outside the
three enumerated values yields a task whose priority is not enumerated,
unlike the package-level AddTask which coerces it to medium. -/
theorem Task_AddTask_method_verbatim (t : Task) (title priority : Str) (now : DateTime)
    (id : Int) :
    (Task.AddTask t title priority now).Title = title ∧
    (Task.AddTask t title priority now).Done = false ∧
    (Task.AddTask t title priority now).CreatedAt = now ∧
    (Task.AddTask t title priority now).Priority = priority ∧
    (Task.AddTask t title priority now).ID = t.ID ∧
    (priority ≠ PriorityHigh → priority ≠ PriorityMedium → priority ≠ PriorityLow →
      ((Task.AddTask t title priority now).Priority ≠ PriorityHigh ∧
        (Task.AddTask t title priority now).Priority ≠ PriorityMedium ∧
        (Task.AddTask t title priority now).Priority ≠ PriorityLow) ∧
      (AddTask id title priority now).Priority = PriorityMedium) := by
  refine ⟨rfl, rfl, rfl, rfl, rfl, ?_⟩
  intro h1 h2 h3
  constructor
  · exact ⟨h1, h2, h3⟩
  · rw [AddTask, if_pos ⟨h1, h2, h3⟩]

/-- Witness for claim C10 at the unrecognized priority value `urgent`. -/
theorem Task_AddTask_method_verbatim_witness :
    ((Task.AddTask sampleTask (str "x") (str "urgent") ⟨2020, 1, 1, 0, 0, 0⟩).Priority ≠
        PriorityHigh ∧
      (Task.AddTask sampleTask (str "x") (str "urgent") ⟨2020, 1, 1, 0, 0, 0⟩).Priority ≠
        PriorityMedium ∧
      (Task.AddTask sampleTask (str "x") (str "urgent") ⟨2020, 1, 1, 0, 0, 0⟩).Priority ≠
        PriorityLow) ∧
    (AddTask 3 (str "x") (str "urgent") ⟨2020, 1, 1, 0, 0, 0⟩).Priority = PriorityMedium :=
  (Task_AddTask_method_verbatim sampleTask (str "x") (str "urgent") ⟨2020, 1, 1, 0, 0, 0⟩
    3).2.2.2.2.2 (by decide) (by decide) (by decide)

end TaskM
namespace TaskM

/-- Claim C5: handleDoneTask mutates at most the Done field of the first
record carrying the requested id — via a point update that keeps every other
field, every other record, and the length and order of the store; an
already-done first match reports alreadyDone with the store untouched, and a
missing id reports notFound with the store untouched. -/
theorem handleDoneTask_frame (ts : List Task) (id : Int) :
    (findFirstIdx id ts = none →
      (∀ t ∈ ts, t.ID ≠ id) ∧ handleDoneTask ts id = (ts, DoneResult.notFound)) ∧
    ∀ i, findFirstIdx id ts = some i →
      (∀ j u, j < i → ts.get? j = some u → u.ID ≠ id) ∧
      ∃ t, ts.get? i = some t ∧ t.ID = id ∧
        (t.Done = true → handleDoneTask ts id = (ts, DoneResult.alreadyDone)) ∧
        (t.Done = false →
          handleDoneTask ts id = (ts.set i { t with Done := true }, DoneResult.marked)) := by
  constructor
  · intro h
    exact ⟨findFirstIdx_none_iff.mp h, handleDoneTask_none h⟩
  · intro i h
    refine ⟨findFirstIdx_some_first h, ?_⟩
    obtain ⟨t, hget, hid⟩ := findFirstIdx_some_get h
    obtain ⟨h1, h2⟩ := handleDoneTask_found h hget
    exact ⟨t, hget, hid, h1, h2⟩

/-- Witness for claim C5: marking the first sample task done flips exactly
its Done flag in place. -/
theorem handleDoneTask_frame_witness :
    handleDoneTask [sampleTask, sampleTask2] 10 =
      ([{ sampleTask with Done := true }, sampleTask2], DoneResult.marked) := by
  obtain ⟨hfirst, t, hget, hid, h1, h2⟩ :=
    (handleDoneTask_frame [sampleTask, sampleTask2] 10).2 0 (by decide)
  have ht : sampleTask = t := Option.some_inj.mp hget
  rw [h2 (by rw [← ht]; rfl)]
  rw [← ht]
  rfl

/-- Claim C6: handleDeleteTask removes the first record carrying the
requested id by overwriting its slot with the last element and shrinking the
list by one (swap-with-last, order not preserved), leaving the remaining
records' contents unchanged as a collection; a missing id reports not-found
and leaves the store untouched. -/
theorem handleDeleteTask_swap_remove (ts : List Task) (id : Int) :
    (findFirstIdx id ts = none →
      (∀ t ∈ ts, t.ID ≠ id) ∧ handleDeleteTask ts id = (ts, false)) ∧
    ∀ i, findFirstIdx id ts = some i →
      (∃ t, ts.get? i = some t ∧ t.ID = id) ∧
      (∀ j u, j < i → ts.get? j = some u → u.ID ≠ id) ∧
      (handleDeleteTask ts id).2 = true ∧
      (handleDeleteTask ts id).1 = (ts.set i (ts.getLastD default)).dropLast ∧
      (handleDeleteTask ts id).1.length + 1 = ts.length ∧
      (handleDeleteTask ts id).1.Perm (ts.eraseIdx i) := by
  constructor
  · intro h
    exact ⟨findFirstIdx_none_iff.mp h, handleDeleteTask_none h⟩
  · intro i h
    have hlt := findFirstIdx_some_lt h
    obtain ⟨t, hget, hid⟩ := findFirstIdx_some_get h
    rw [handleDeleteTask_found h]
    refine ⟨⟨t, hget, hid⟩, findFirstIdx_some_first h, rfl, rfl, ?_, swapDelete_perm ts i hlt⟩
    rw [List.length_dropLast, List.length_set]
    omega

/-- Witness for claim C6: deleting the head of a three-task store moves the
last record into its slot. -/
theorem handleDeleteTask_swap_remove_witness :
    handleDeleteTask [sampleTask, sampleTask2, sampleTask3] 10 =
      ([sampleTask3, sampleTask2], true) := by
  obtain ⟨hex, hfirst, hfound, heq, hlen, hperm⟩ :=
    (handleDeleteTask_swap_remove [sampleTask, sampleTask2, sampleTask3] 10).2 0 (by decide)
  have : handleDeleteTask [sampleTask, sampleTask2, sampleTask3] 10 =
      ((handleDeleteTask [sampleTask, sampleTask2, sampleTask3] 10).1,
        (handleDeleteTask [sampleTask, sampleTask2, sampleTask3] 10).2) := rfl
  rw [this, heq, hfound]
  rfl

/-- Claim C2: LoadTasks keeps exactly the lines that split into five fields
with a parsable id, done flag and timestamp, skipping each offending line
with one diagnostic while continuing with the rest; a line whose only defect
is an unrecognized priority is kept with priority coerced to medium (and one
diagnostic); the result is exactly the per-line decodings of the surviving
lines. -/
theorem LoadTasks_decode_robustness :
    (∀ content : Str,
      (LoadTasksLines (scanLines content)).tasks = (scanLines content).filterMap parseLine ∧
      (LoadTasksLines (scanLines content)).diags = ((scanLines content).map lineDiag).sum) ∧
    ∀ line : Str,
      (parseLine line = none ↔
        ¬((SplitN '|' 5 line).length = 5 ∧ (Atoi (partAt line 0)).isSome = true ∧
          (ParseBool (partAt line 2)).isSome = true ∧
          (parseGoTime (partAt line 3)).isSome = true)) ∧
      (parseLine line = none → lineDiag line = 1) ∧
      ∀ t, parseLine line = some t →
        Atoi (partAt line 0) = some t.ID ∧
        t.Title = partAt line 1 ∧
        ParseBool (partAt line 2) = some t.Done ∧
        parseGoTime (partAt line 3) = some t.CreatedAt ∧
        ((partAt line 4 = PriorityHigh ∨ partAt line 4 = PriorityMedium ∨
            partAt line 4 = PriorityLow) → t.Priority = partAt line 4) ∧
        (¬(partAt line 4 = PriorityHigh ∨ partAt line 4 = PriorityMedium ∨
            partAt line 4 = PriorityLow) →
          t.Priority = PriorityMedium ∧ lineDiag line = 1) := by
  constructor
  · intro content
    exact ⟨LoadTasksLines_tasks _, LoadTasksLines_diags _⟩
  · intro line
    refine ⟨parseLine_eq_none_iff line, ?_, ?_⟩
    · intro h
      rw [lineDiag, if_pos h]
    · intro t h
      obtain ⟨hl, ha, ht, hb, hc, hp1, hp2⟩ := parseLine_some_spec h
      refine ⟨ha, ht, hb, hc, hp1, fun hnr => ⟨hp2 hnr, ?_⟩⟩
      rw [lineDiag, if_neg (by rw [h]; exact Option.noConfusion), if_neg hnr]

/-- Witness for claim C2: a file mixing good and bad lines, and the
unrecognized-priority line kept with priority medium. -/
theorem LoadTasks_decode_robustness_witness :
    ((LoadTasksLines (scanLines dupContent)).tasks =
      (scanLines dupContent).filterMap parseLine) ∧
    (Atoi (partAt urgentLine 0) = some urgentTask.ID ∧
      urgentTask.Title = partAt urgentLine 1 ∧
      ParseBool (partAt urgentLine 2) = some urgentTask.Done ∧
      parseGoTime (partAt urgentLine 3) = some urgentTask.CreatedAt ∧
      urgentTask.Priority = PriorityMedium ∧ lineDiag urgentLine = 1) := by
  obtain ⟨ha, ht, hb, hc, hp1, hp2⟩ :=
    (LoadTasks_decode_robustness.2 urgentLine).2.2 urgentTask (by decide)
  exact ⟨(LoadTasks_decode_robustness.1 dupContent).1, ha, ht, hb, hc,
    (hp2 (by decide)).1, (hp2 (by decide)).2⟩

/-- Claim C9 (amended): a missing file decodes to the empty sequence,
maximum id zero and no error; in general the returned integer is the
maximum of zero and the ids of the successfully parsed records (the loop
starts its running maximum at zero, so an all-negative id set still yields
zero). -/
theorem LoadTasks_return_contract :
    LoadTasks FileState.absent = some { tasks := [], maxID := 0, diags := 0 } ∧
    ∀ content : Str,
      (LoadTasksLines (scanLines content)).maxID =
        ((LoadTasksLines (scanLines content)).tasks.map Task.ID).foldl max 0 := by
  refine ⟨rfl, ?_⟩
  intro content
  rw [LoadTasksLines_maxID, LoadTasksLines_tasks]

/-- Counterexample for claim C9 as stated: a parsable record with id -5 is
decoded, so the maximum id among parsed records is -5, but LoadTasks
returns 0. -/
theorem LoadTasks_return_contract_counterexample :
    ((LoadTasksLines [negLine]).tasks.map Task.ID) = [-5] ∧
    (LoadTasksLines [negLine]).maxID = 0 ∧
    ((0 : Int) ≠ -5) := by
  refine ⟨by decide, by decide, by decide⟩

end TaskM
namespace TaskM

/-- Claim C1 (amended): for every sequence of valid records whose titles
contain neither the field separator nor a newline (and whose timestamps lie
in the four-digit-year range the layout can represent), a successful
SaveTasks writes exactly the encoded lines to the target path, and decoding
that content with the LoadTasks loop returns the same sequence field for
field, timestamps compared at one-second resolution. -/
theorem SaveTasks_LoadTasks_roundtrip (ts : List Task) (o : SaveOracle) (filePath : Str)
    (fs : FS) (hv : ∀ t ∈ ts, ValidTask t)
    (hs : (SaveTasks o filePath ts fs).2 = false) :
    (SaveTasks o filePath ts fs).1 filePath = some (encodeTasks ts) ∧
    (LoadTasksLines (scanLines (encodeTasks ts))).tasks = ts := by
  refine ⟨(SaveTasks_success hs).1, ?_⟩
  rw [LoadTasksLines_tasks,
    scanLines_encode
      (fun t ht => newline_not_mem_taskLine (hv t ht).1.2.2.2 (hv t ht).2.2)
      (fun t ht => taskLine_not_end_cr (hv t ht).1.2.2.2),
    filterMap_parseLine_taskLine hv]

/-- Witness for claim C1 at a concrete one-record store. -/
theorem SaveTasks_LoadTasks_roundtrip_witness :
    (∀ t ∈ [sampleTask], ValidTask t) ∧
    (SaveTasks allOk (str "tasks.txt") [sampleTask] emptyFS).2 = false ∧
    ((SaveTasks allOk (str "tasks.txt") [sampleTask] emptyFS).1 (str "tasks.txt") =
        some (encodeTasks [sampleTask]) ∧
      (LoadTasksLines (scanLines (encodeTasks [sampleTask]))).tasks = [sampleTask]) :=
  ⟨by decide, by decide,
   SaveTasks_LoadTasks_roundtrip [sampleTask] allOk (str "tasks.txt") emptyFS
     (by decide) (by decide)⟩

/-- Counterexample for claim C1 as stated: a record that is valid for the
data model but whose title contains the separator is written by SaveTasks
and then lost by the decode, so the round trip does not return it. -/
theorem SaveTasks_LoadTasks_roundtrip_counterexample :
    DataModelValid pipeTitleTask ∧
    (SaveTasks allOk (str "tasks.txt") [pipeTitleTask] emptyFS).2 = false ∧
    (SaveTasks allOk (str "tasks.txt") [pipeTitleTask] emptyFS).1 (str "tasks.txt") =
      some (encodeTasks [pipeTitleTask]) ∧
    (LoadTasksLines (scanLines (encodeTasks [pipeTitleTask]))).tasks ≠ [pipeTitleTask] := by
  refine ⟨by decide, by decide, by decide, by decide⟩

/-- Claim C4 (amended): provided the records decoded at startup carry
pairwise-distinct ids (as any file produced by SaveTasks from a store with
distinct ids does) and the run performs few enough add operations that the
generator's machine-integer counter never overflows (observed maximum id
plus the number of adds stays below the largest `int`), every state reached
from the loaded store and the generator seeded with that maximum — by any
sequence of add, markDone and delete operations — has pairwise-distinct ids
in the live store. -/
theorem store_ids_pairwise_distinct (content : Str) (ops : List Op)
    (h : ((LoadTasksLines (scanLines content)).tasks.map Task.ID).Pairwise (· ≠ ·))
    (hnw : (LoadTasksLines (scanLines content)).maxID + (countAdds ops : Int) < intMax) :
    ((ops.foldl applyOp (initialState content)).tasks.map Task.ID).Pairwise (· ≠ ·) := by
  have hm0 : 0 ≤ (LoadTasksLines (scanLines content)).maxID := by
    rw [LoadTasksLines_maxID]
    exact (le_foldl_max _ 0).1
  have hca0 : (0 : Int) ≤ (countAdds ops : Int) := Int.ofNat_nonneg _
  have hmin0 : intMin ≤ (0 : Int) := intMin_le_zero
  have hgen : (initialState content).gen.nextID =
      (LoadTasksLines (scanLines content)).maxID + 1 := by
    show wrapInt ((LoadTasksLines (scanLines content)).maxID + 1) =
      (LoadTasksLines (scanLines content)).maxID + 1
    exact wrapInt_eq_self (by omega) (by omega)
  have hb : ∀ t ∈ (initialState content).tasks, t.ID < (initialState content).gen.nextID := by
    intro t ht
    have hle := LoadTasksLines_ID_le_maxID
      (show t ∈ (LoadTasksLines (scanLines content)).tasks from ht)
    rw [hgen]
    omega
  refine (storeInv_foldl ops (initialState content) h hb ?_ ?_).1
  · rw [hgen]
    omega
  · rw [hgen]
    omega

/-- Witness for claim C4: a one-record file followed by an add, a markDone
and a delete keeps ids distinct, the single add being far below the
overflow budget. -/
theorem store_ids_pairwise_distinct_witness :
    (((LoadTasksLines (scanLines singleContent)).tasks.map Task.ID).Pairwise (· ≠ ·)) ∧
    ((LoadTasksLines (scanLines singleContent)).maxID +
        (countAdds [Op.add (str "t") (str "urgent") ⟨2021, 3, 4, 5, 6, 7⟩, Op.markDone 1,
          Op.delete 2] : Int) < intMax) ∧
    ((([Op.add (str "t") (str "urgent") ⟨2021, 3, 4, 5, 6, 7⟩, Op.markDone 1,
          Op.delete 2].foldl applyOp (initialState singleContent)).tasks.map Task.ID).Pairwise
      (· ≠ ·)) :=
  ⟨by decide, by decide,
   store_ids_pairwise_distinct singleContent _ (by decide) (by decide)⟩

/-- Counterexample for claim C4 as stated: a file whose two well-formed
lines carry the same id loads into a reachable state (zero operations) whose
store already violates id uniqueness; and even with distinct loaded ids the
claim fails, because loading ids `2^63 - 1` and `-2^63` seeds the generator
at the top of the `int` range, the counter wraps, and a single add
duplicates the id `-2^63`. -/
theorem store_ids_pairwise_distinct_counterexample :
    (¬ (((([] : List Op).foldl applyOp (initialState dupContent)).tasks.map Task.ID).Pairwise
      (· ≠ ·))) ∧
    (((LoadTasksLines (scanLines overflowContent)).tasks.map Task.ID).Pairwise (· ≠ ·)) ∧
    ¬ ((([Op.add (str "t") (str "low") ⟨2021, 1, 1, 0, 0, 0⟩].foldl applyOp
        (initialState overflowContent)).tasks.map Task.ID).Pairwise (· ≠ ·)) := by
  refine ⟨by decide, by decide, by decide⟩

end TaskM
